import Mathlib

set_option linter.unnecessarySimpa false
set_option linter.unusedVariables false

/-
Verification of the EuroNCAP agentic retrieval workflow (src/workflow.py).
The workflow steps are embedded as pure functions; the external collaborators
(vector search, reranker, planner and synthesizer language models) are
parameters, and the engine's nondeterministic completion order of concurrent
retrieval dispatches is an explicit parameter of the run model.
-/

namespace EuroNCAP

/-- Whitespace characters in the ASCII range that the Python int builtin
strips (the builtin additionally strips non-ASCII Unicode whitespace, which
lies outside the ASCII-scoped claims below). -/
def isPySpace (c : Char) : Bool :=
  c = ' ' || c = '\t' || c = '\n' || c = '\r' || c = '\x0b' || c = '\x0c' ||
    c = '\x1c' || c = '\x1d' || c = '\x1e' || c = '\x1f'

/-- Acceptor for the tail of a Python integer digit part, after its first
digit: digits optionally separated by single underscores. -/
def pyDigitTail : List Char → Bool
  | [] => true
  | c :: cs =>
    if c = '_' then
      match cs with
      | [] => false
      | c2 :: cs2 => c2.isDigit && pyDigitTail cs2
    else
      c.isDigit && pyDigitTail cs

/-- Acceptor for a full Python integer digit part: at least one digit, with
single underscores allowed between digits. -/
def pyDigitPart : List Char → Bool
  | [] => false
  | c :: cs => c.isDigit && pyDigitTail cs

/-- Numeric value of a digit part, ignoring underscore separators. -/
def digitVal (cs : List Char) : Nat :=
  cs.foldl (fun a c => if c = '_' then a else a * 10 + (c.toNat - 48)) 0

/-- Core of the Python int builtin after whitespace trimming: an optional
sign followed by a digit part; none models the ValueError raised on any
other input. -/
def pyIntCore : List Char → Option Int
  | [] => none
  | c :: cs =>
    if c = '+' then
      if pyDigitPart cs then some (Int.ofNat (digitVal cs)) else none
    else if c = '-' then
      if pyDigitPart cs then some (-(Int.ofNat (digitVal cs))) else none
    else
      if pyDigitPart (c :: cs) then some (Int.ofNat (digitVal (c :: cs))) else none

/-- Model of the Python int builtin applied to a character sequence:
surrounding whitespace is discarded, then an optional sign and a digit part
are required; none models the ValueError raised otherwise. On strings of
ASCII characters this agrees exactly with the builtin; on other strings the
builtin additionally accepts Unicode decimal digits and whitespace, which
the ASCII-scoped claims below do not cover. -/
def pyInt (cs : List Char) : Option Int :=
  pyIntCore (((cs.dropWhile isPySpace).reverse.dropWhile isPySpace).reverse)

/-- Python truthiness of an optional string field: None and the empty string
are falsy. -/
def pyTruthy : Option String → Bool
  | none => false
  | some s => !s.toList.isEmpty

/-- Operators used by the compiled metadata filters (src/workflow.py lines
199-220): LTE and GTE for the date range, EQ for version and protocol type. -/
inductive FilterOperator
  | eq
  | lte
  | gte
deriving DecidableEq, Repr

/-- Value carried by a metadata filter: the date bound is an integer, the
version and protocol type are strings. -/
inductive FilterValue
  | intVal (n : Int)
  | strVal (s : String)
deriving DecidableEq, Repr

/-- One compiled metadata filter (key, value, operator). -/
structure MetadataFilter where
  key : String
  value : FilterValue
  operator : FilterOperator
deriving DecidableEq, Repr

/-- One atomic retrieval intent produced by the planner (src/workflow.py
lines 21-42). -/
structure RetrievalTask where
  mode : String
  target_date : Option String := none
  target_version : Option String := none
  protocol_type : Option String := none
  system_domain : Option String := none
  rewritten_query : String := ""
deriving DecidableEq, Repr

/-- Hyphen removal performed on the target date before the integer
conversion (src/workflow.py line 198). -/
def stripHyphens (s : String) : List Char :=
  s.toList.filter (fun c => c ≠ '-')

/-- Filter compilation of the retriever step (src/workflow.py lines
196-222): in precision mode a truthy target_date yields the two date range
predicates (a failing integer conversion is the error case) and a truthy
target_version yields a version equality predicate; a truthy protocol_type
yields a protocol_type equality predicate in either mode. -/
def compileFilters (task : RetrievalTask) : Except String (List MetadataFilter) :=
  let dateStep : Except String (List MetadataFilter) :=
    if task.mode = "precision" ∧ pyTruthy task.target_date then
      match task.target_date with
      | none => .ok []
      | some d =>
        match pyInt (stripHyphens d) with
        | none => .error "invalid literal for base 10 integer conversion"
        | some n =>
          .ok [⟨"start_date", .intVal n, .lte⟩, ⟨"end_date", .intVal n, .gte⟩]
    else .ok []
  match dateStep with
  | .error e => .error e
  | .ok dateFilters =>
    let versionFilters :=
      if task.mode = "precision" ∧ pyTruthy task.target_version then
        [MetadataFilter.mk "version" (.strVal (task.target_version.getD "")) .eq]
      else []
    let protoFilters :=
      if pyTruthy task.protocol_type then
        [MetadataFilter.mk "protocol_type" (.strVal (task.protocol_type.getD "")) .eq]
      else []
    .ok (dateFilters ++ versionFilters ++ protoFilters)

/-- Success test for a compilation outcome. -/
def exceptOk {α : Type} : Except String α → Bool
  | .ok _ => true
  | .error _ => false

/-- Terminal message returned by the planner step on an empty plan
(src/workflow.py line 172). -/
def noKnowledgeMsg : String :=
  "Sorry, I do not have the knowledge to answer that question."

/-- Terminal message returned by the synthesizer step when every retrieval
result is empty (src/workflow.py lines 288-291). -/
def noInfoMsg : String :=
  "Sorry, I could not find any relevant information in the provided protocols matching your criteria."

/-- One retrieved document chunk: its file_name metadata entry (absent
entries display as Unknown File) and its text content. -/
structure Node where
  file_name : Option String := none
  text : String
deriving DecidableEq, Repr

/-- Pairing of a retrieval task with the reranked nodes retrieved for it
(src/workflow.py lines 55-57). -/
structure RetrievalResultEvent where
  task : RetrievalTask
  nodes : List Node
deriving DecidableEq, Repr

/-- Calls made to the external collaborators during a run, in order. -/
inductive CallEvent
  | retrieveCall (query : String) (filters : Option (List MetadataFilter))
  | rerankCall (query : String)
  | synthesizeCall (context : String) (query : String)
deriving DecidableEq, Repr

/-- Python expression rendering a target date, with falsy dates (None or
empty) displayed as the literal Any (src/workflow.py line 279). -/
def dateOrAny (d : Option String) : String :=
  match d with
  | none => "Any"
  | some s => if s.toList.isEmpty then "Any" else s

/-- Labelled context block the synthesizer step builds for the result at
position i of the aggregated results (src/workflow.py lines 278-286). -/
def contextBlock (i : Nat) (r : RetrievalResultEvent) : String :=
  let label := "Source " ++ toString (i + 1) ++ " (Date: " ++
    dateOrAny r.task.target_date ++ ", Mode: " ++ r.task.mode ++ ")"
  let content := String.join (r.nodes.map (fun n =>
    "\n[File: " ++ n.file_name.getD "Unknown File" ++ "]\n" ++ n.text ++ "\n"))
  "=== " ++ label ++ " ===\n" ++ content ++ "\n"

/-- Context blocks the synthesizer step accumulates while scanning the
aggregated results with their positions, skipping results without nodes
(src/workflow.py lines 269-286). -/
def contextPartsAux (i : Nat) : List RetrievalResultEvent → List String
  | [] => []
  | r :: rs =>
    if r.nodes.isEmpty then contextPartsAux (i + 1) rs
    else contextBlock i r :: contextPartsAux (i + 1) rs

/-- Context blocks of a whole results list, positions counted from zero. -/
def contextParts (rs : List RetrievalResultEvent) : List String :=
  contextPartsAux 0 rs

/-- Flag computed by the synthesizer step loop: true exactly when some
result carries nodes (src/workflow.py lines 270-277). -/
def hasContent (rs : List RetrievalResultEvent) : Bool :=
  rs.any (fun r => !r.nodes.isEmpty)

/-- Synthesizer step (src/workflow.py lines 265-301): with no content it
short-circuits to the fixed message without calling the synthesizer
capability; otherwise it joins the labelled blocks with a newline, calls the
capability once with the joined context and the original query, and returns
its answer verbatim. The second component logs the synthesizer calls. -/
def synthesizerStep (synth : String → String → String)
    (results : List RetrievalResultEvent) (query : String) :
    String × List CallEvent :=
  if hasContent results then
    let fullContext := String.intercalate "\n" (contextParts results)
    (synth fullContext query, [.synthesizeCall fullContext query])
  else
    (noInfoMsg, [])

/-- Retriever step (src/workflow.py lines 191-242): compiles the filters (a
failing integer conversion fails this dispatch), queries the vector index
with the rewritten query and the filter set (or no filters when the set is
empty), and reranks only when the vector search returned nodes. The search
and rerank collaborators are parameters; the log records their calls. -/
def retrieverStep (search : String → Option (List MetadataFilter) → List Node)
    (rerank : String → List Node → List Node) (task : RetrievalTask) :
    Except String (RetrievalResultEvent × List CallEvent) :=
  match compileFilters task with
  | .error e => .error e
  | .ok filters =>
    let metadataFilters := if filters.isEmpty then none else some filters
    let vectorNodes := search task.rewritten_query metadataFilters
    if vectorNodes.isEmpty then
      .ok (⟨task, []⟩, [.retrieveCall task.rewritten_query metadataFilters])
    else
      .ok (⟨task, rerank task.rewritten_query vectorNodes⟩,
        [.retrieveCall task.rewritten_query metadataFilters,
          .rerankCall task.rewritten_query])

/-- Observable effects of the planner step in program order (src/workflow.py
lines 157-189). -/
inductive PlannerAction
  | stop (result : String)
  | setTotal (n : Nat)
  | setResults (init : List RetrievalResultEvent)
  | setQuery (q : String)
  | dispatch (t : RetrievalTask)
deriving DecidableEq, Repr

/-- Planner step effects (src/workflow.py lines 157-189): an empty plan
stops the run with the fixed message; otherwise the run context keys
total_tasks, results and original_query are written, then one dispatch
event is sent per task, in plan order. -/
def plannerStep (query : String) (plan : List RetrievalTask) : List PlannerAction :=
  if plan.length = 0 then [.stop noKnowledgeMsg]
  else
    [.setTotal plan.length, .setResults [], .setQuery query] ++
      plan.map PlannerAction.dispatch

/-- One aggregator arrival (src/workflow.py lines 244-263): append the event
to the stored results, then emit the aggregated results exactly when the new
count reaches the stored task total. -/
def aggStep (total : Nat) (stored : List RetrievalResultEvent)
    (ev : RetrievalResultEvent) :
    List RetrievalResultEvent × Option (List RetrievalResultEvent) :=
  let results := stored ++ [ev]
  if total ≤ results.length then (results, some results) else (results, none)

/-- Serial processing of a sequence of arrivals by the aggregator from a
given stored state, collecting every emission in order. -/
def aggRunAux (total : Nat) (stored : List RetrievalResultEvent)
    (emitted : List (List RetrievalResultEvent)) :
    List RetrievalResultEvent →
      List RetrievalResultEvent × List (List RetrievalResultEvent)
  | [] => (stored, emitted)
  | ev :: rest =>
    let out := aggStep total stored ev
    aggRunAux total out.1 (emitted ++ out.2.toList) rest

/-- Serial processing of all arrivals of a run, starting from the empty
accumulator the planner step wrote. -/
def aggRun (total : Nat) (arrivals : List RetrievalResultEvent) :
    List RetrievalResultEvent × List (List RetrievalResultEvent) :=
  aggRunAux total [] [] arrivals

/-- State of two aggregator invocations racing on one run: the shared stored
list, each invocation's progress (0 before the store read, 1 after it, 2
after the in-place append and store write, 3 after the count comparison)
and whether each decided to emit. -/
structure RaceState where
  buf : List Nat
  pcA : Nat
  pcB : Nat
  firedA : Bool
  firedB : Bool
deriving DecidableEq, Repr

/-- Atomic blocks of the first racing invocation of the aggregator body
(src/workflow.py lines 248-263), delimited by its await suspension points:
read the stored list, append to it in place and write it back, then compare
the length with the expected total and decide whether to emit. -/
def raceStepA (total : Nat) (evA : Nat) (s : RaceState) : RaceState :=
  match s.pcA with
  | 0 => { s with pcA := 1 }
  | 1 => { s with buf := s.buf ++ [evA], pcA := 2 }
  | 2 => { s with firedA := decide (total ≤ s.buf.length), pcA := 3 }
  | _ => s

/-- Atomic blocks of the second racing invocation, symmetric to the first. -/
def raceStepB (total : Nat) (evB : Nat) (s : RaceState) : RaceState :=
  match s.pcB with
  | 0 => { s with pcB := 1 }
  | 1 => { s with buf := s.buf ++ [evB], pcB := 2 }
  | 2 => { s with firedB := decide (total ≤ s.buf.length), pcB := 3 }
  | _ => s

/-- Run a schedule interleaving the two invocations: true advances the
first invocation by one atomic block, false the second. -/
def raceRun (total : Nat) (evA evB : Nat) (init : List Nat)
    (sched : List Bool) : RaceState :=
  sched.foldl
    (fun s w => if w then raceStepA total evA s else raceStepB total evB s)
    { buf := init, pcA := 0, pcB := 0, firedA := false, firedB := false }

/-- Serialized schedules: one invocation runs all three of its blocks to
completion before the other starts, which is how the engine delivers
arrivals to the aggregator step. -/
def serializedSched (sched : List Bool) : Prop :=
  sched = [true, true, true, false, false, false] ∨
    sched = [false, false, false, true, true, true]

/-- Sequencing of the dispatch outcomes: the run fails on the first failing
dispatch, otherwise all results are collected in dispatch order. -/
def seqExcept {α : Type} : List (Except String α) → Except String (List α)
  | [] => .ok []
  | x :: xs =>
    match x, seqExcept xs with
    | .error e, _ => .error e
    | .ok _, .error e => .error e
    | .ok a, .ok rest => .ok (a :: rest)

/-- Placeholder result used only to totalize list indexing in the run
model; a permutation arrival order never selects it. -/
def emptyResult : RetrievalResultEvent :=
  ⟨{ mode := "", rewritten_query := "" }, []⟩

/-- Whole-run model of the workflow for one query, with the planner output
as the plan parameter: an empty plan stops immediately with the fixed
message and no collaborator call; otherwise every task is dispatched, and
the aggregated results reach the synthesizer step in completion order,
which the engine leaves unconstrained across concurrently completing
retrievals and which is therefore a parameter (a permutation of the
dispatch positions). A failing dispatch fails the run. -/
def runWorkflow (search : String → Option (List MetadataFilter) → List Node)
    (rerank : String → List Node → List Node)
    (synth : String → String → String)
    (plan : List RetrievalTask) (query : String) (arrival : List Nat) :
    Except String (String × List CallEvent) :=
  if plan.isEmpty then .ok (noKnowledgeMsg, [])
  else
    match seqExcept (plan.map (retrieverStep search rerank)) with
    | .error e => .error e
    | .ok pairs =>
      let results := pairs.map Prod.fst
      let retrieveLog := (pairs.map Prod.snd).flatten
      let ordered := arrival.map (fun i => results.getD i emptyResult)
      let outcome := synthesizerStep synth ordered query
      .ok (outcome.1, retrieveLog ++ outcome.2)

/-- Non-empty digit groups joined by single underscores. -/
def glueGroups : List (List Char) → List Char
  | [] => []
  | [g] => g
  | g :: gs => g ++ '_' :: glueGroups gs

/-- Declarative shape of the digit part of a Python integer literal:
non-empty groups of decimal digits joined by single underscores. -/
def DigitPartShape (cs : List Char) : Prop :=
  ∃ gs : List (List Char), gs ≠ [] ∧
    (∀ g ∈ gs, g ≠ [] ∧ ∀ c ∈ g, c.isDigit) ∧ cs = glueGroups gs

/-- Declarative shape of a string of ASCII characters the Python int
builtin accepts: optional surrounding whitespace, an optional sign, then a
digit part. -/
def PyIntShape (cs : List Char) : Prop :=
  ∃ w1 sg core w2, cs = w1 ++ sg ++ core ++ w2 ∧
    (∀ c ∈ w1, isPySpace c) ∧ (∀ c ∈ w2, isPySpace c) ∧
    (sg = [] ∨ sg = ['+'] ∨ sg = ['-']) ∧ DigitPartShape core

/-- Example global-mode task carrying non-null date and version fields. -/
def taskGlobalEx : RetrievalTask :=
  { mode := "global", target_date := some "2023-06-15",
    target_version := some "4.3.1", protocol_type := none,
    system_domain := none, rewritten_query := "AEB history" }

/-- Example precision-mode task with a version and a protocol type but no
date, matching the scenario of the specification. -/
def taskPrecisionEx : RetrievalTask :=
  { mode := "precision", target_date := none, target_version := some "4.3.1",
    protocol_type := some "Test Protocol", system_domain := none,
    rewritten_query := "CCRs test speed" }

/-- Example precision-mode task with an ISO target date. -/
def taskDateEx : RetrievalTask :=
  { mode := "precision", target_date := some "2023-06-15",
    target_version := none, protocol_type := none, system_domain := none,
    rewritten_query := "test speed specification" }

/-- Example precision-mode task whose target date carries a leading sign,
so its hyphen-stripped form is not a digit string. -/
def taskPlusDateEx : RetrievalTask :=
  { mode := "precision", target_date := some "+2023-06-15",
    target_version := none, protocol_type := none, system_domain := none,
    rewritten_query := "test speed specification" }

/-- Example precision-mode task whose target date is a month name. -/
def taskJuneEx : RetrievalTask :=
  { mode := "precision", target_date := some "June 2023",
    target_version := none, protocol_type := none, system_domain := none,
    rewritten_query := "test speed specification" }

/-- Example retrieved node for the first example task. -/
def nodeA : Node := { file_name := some "protoA.pdf", text := "alpha content" }

/-- Example retrieved node for the second example task. -/
def nodeB : Node := { file_name := some "protoB.pdf", text := "beta content" }

/-- First task of the two-task example plan. -/
def taskA : RetrievalTask := { mode := "global", rewritten_query := "qa" }

/-- Second task of the two-task example plan. -/
def taskB : RetrievalTask := { mode := "global", rewritten_query := "qb" }

/-- Example search capability returning one distinct node per query. -/
def exSearch : String → Option (List MetadataFilter) → List Node :=
  fun q _ => if q = "qa" then [nodeA] else [nodeB]

/-- Example rerank capability that keeps the nodes unchanged. -/
def exRerank : String → List Node → List Node := fun _ ns => ns

/-- Example synthesizer capability that answers with its context, making the
context passed to it observable in the terminal result. -/
def exSynth : String → String → String := fun c _ => c

/-- Result of the first example task. -/
def resA : RetrievalResultEvent := ⟨taskA, [nodeA]⟩

/-- Result of the second example task. -/
def resB : RetrievalResultEvent := ⟨taskB, [nodeB]⟩

/-- Empty result of the first example task. -/
def resEmptyA : RetrievalResultEvent := ⟨taskA, []⟩

/-- Empty result of the second example task. -/
def resEmptyB : RetrievalResultEvent := ⟨taskB, []⟩

theorem toList_nil_iff (s : String) : s.toList = [] ↔ s = "" := by
  constructor
  · intro h
    apply String.ext
    have he : ("" : String).data = [] := rfl
    rw [he]
    simpa [String.toList] using h
  · intro h
    rw [h]
    rfl

theorem pyTruthy_some (s : String) : pyTruthy (some s) = true ↔ s ≠ "" := by
  constructor
  · intro h e
    subst e
    exact absurd h (by decide)
  · intro h
    have hne : s.toList ≠ [] := fun e => h ((toList_nil_iff s).1 e)
    simpa [pyTruthy, List.isEmpty_iff] using hne

theorem isPySpace_eq_false_of_isDigit (c : Char) (h : c.isDigit = true) :
    isPySpace c = false := by
  cases hc : isPySpace c
  · rfl
  · exfalso
    simp only [isPySpace, Bool.or_eq_true, decide_eq_true_eq] at hc
    rcases hc with ((((((((h1 | h1) | h1) | h1) | h1) | h1) | h1) | h1) | h1) | h1 <;>
      subst h1 <;> exact absurd h (by decide)

theorem ne_underscore_of_isDigit (c : Char) (h : c.isDigit = true) :
    ¬ c = '_' := by
  intro e
  subst e
  exact absurd h (by decide)

theorem pyDigitTail_of_digits :
    ∀ cs : List Char, (∀ c ∈ cs, c.isDigit) → pyDigitTail cs = true := by
  intro cs
  induction cs with
  | nil => intro _; rfl
  | cons c cs ih =>
    intro h
    have hc : c.isDigit := h c (by simp)
    have hu : ¬ c = '_' := ne_underscore_of_isDigit c hc
    have ht := ih (fun x hx => h x (by simp [hx]))
    rw [pyDigitTail.eq_def]
    simp [hu, hc, ht]

theorem pyDigitPart_of_digits (cs : List Char) (h1 : cs ≠ [])
    (h2 : ∀ c ∈ cs, c.isDigit) : pyDigitPart cs = true := by
  cases cs with
  | nil => exact absurd rfl h1
  | cons c cs' =>
    have hc : c.isDigit := h2 c (by simp)
    have ht := pyDigitTail_of_digits cs' (fun x hx => h2 x (by simp [hx]))
    simp [pyDigitPart, hc, ht]

theorem dropWhile_isPySpace_of_digits (cs : List Char)
    (h : ∀ c ∈ cs, c.isDigit) : cs.dropWhile isPySpace = cs := by
  cases cs with
  | nil => rfl
  | cons c cs' =>
    have hc : isPySpace c = false :=
      isPySpace_eq_false_of_isDigit c (h c (by simp))
    simp [List.dropWhile_cons, hc]

theorem pyInt_of_digits (cs : List Char) (h1 : cs ≠ [])
    (h2 : ∀ c ∈ cs, c.isDigit) : pyInt cs = some (Int.ofNat (digitVal cs)) := by
  have hrev : ∀ c ∈ cs.reverse, c.isDigit := by
    intro c hc
    exact h2 c (List.mem_reverse.1 hc)
  have e1 : cs.dropWhile isPySpace = cs := dropWhile_isPySpace_of_digits cs h2
  have e2 : cs.reverse.dropWhile isPySpace = cs.reverse :=
    dropWhile_isPySpace_of_digits _ hrev
  unfold pyInt
  rw [e1, e2, List.reverse_reverse]
  cases cs with
  | nil => exact absurd rfl h1
  | cons c cs' =>
    have hc : c.isDigit := h2 c (by simp)
    have hplus : ¬ c = '+' := by
      intro e
      subst e
      exact absurd hc (by decide)
    have hminus : ¬ c = '-' := by
      intro e
      subst e
      exact absurd hc (by decide)
    have hpart : pyDigitPart (c :: cs') = true :=
      pyDigitPart_of_digits _ (by simp) h2
    simp [pyIntCore, hplus, hminus, hpart]

theorem compileFilters_ok_decomp (task : RetrievalTask)
    (fs : List MetadataFilter) (hok : compileFilters task = .ok fs) :
    ∃ dfs, fs = dfs ++
      (if task.mode = "precision" ∧ pyTruthy task.target_version then
        [MetadataFilter.mk "version" (.strVal (task.target_version.getD "")) .eq]
      else []) ++
      (if pyTruthy task.protocol_type then
        [MetadataFilter.mk "protocol_type"
          (.strVal (task.protocol_type.getD "")) .eq]
      else []) := by
  by_cases h1 : task.mode = "precision" ∧ pyTruthy task.target_date
  · rcases htd : task.target_date with _ | d
    · rw [htd] at h1
      exact absurd h1.2 (by decide)
    · have htr : pyTruthy (some d) = true := by
        rw [← htd]
        exact h1.2
      rcases hpi : pyInt (stripHyphens d) with _ | n
      · exfalso
        simp [compileFilters, h1.1, htd, htr, hpi] at hok
      · refine ⟨[⟨"start_date", .intVal n, .lte⟩, ⟨"end_date", .intVal n, .gte⟩], ?_⟩
        simp [compileFilters, h1.1, htd, htr, hpi] at hok
        subst hok
        simp [h1.1]
  · refine ⟨[], ?_⟩
    simp [compileFilters, h1] at hok
    subst hok
    simp

/-- C3: a run whose planner returns an empty plan terminates immediately
with the fixed out-of-domain message and makes no retrieval, rerank or
synthesizer call; the planner step emits only the stop action and no
dispatch. -/
theorem empty_plan_stops
    (search : String → Option (List MetadataFilter) → List Node)
    (rerank : String → List Node → List Node)
    (synth : String → String → String) (query : String) (arrival : List Nat) :
    runWorkflow search rerank synth [] query arrival = .ok (noKnowledgeMsg, []) ∧
    plannerStep query [] = [.stop noKnowledgeMsg] :=
  ⟨rfl, rfl⟩

/-- C9: for a non-empty plan the planner step writes the task total and the
empty result accumulator (positions 0 and 1 of its effect trace) strictly
before every dispatch action, and the dispatch actions are exactly the
plan's tasks in order. -/
theorem init_before_dispatch (query : String) (plan : List RetrievalTask)
    (h : plan ≠ []) :
    (plannerStep query plan)[0]? = some (.setTotal plan.length) ∧
    (plannerStep query plan)[1]? = some (.setResults []) ∧
    (∀ k t, (plannerStep query plan)[k]? = some (.dispatch t) → 2 < k) ∧
    (plannerStep query plan).drop 3 = plan.map PlannerAction.dispatch := by
  have hlen : ¬ plan.length = 0 := by simpa using h
  refine ⟨?_, ?_, ?_, ?_⟩ <;> simp only [plannerStep, if_neg hlen]
  · rfl
  · rfl
  · intro k t hk
    match k with
    | 0 => simp at hk
    | 1 => simp at hk
    | 2 => simp at hk
    | n + 3 => omega
  · rfl

theorem init_before_dispatch_witness :
    ([taskA] ≠ ([] : List RetrievalTask)) ∧
    ((plannerStep "q" [taskA])[0]? = some (.setTotal 1) ∧
      (plannerStep "q" [taskA])[1]? = some (.setResults []) ∧
      (∀ k t, (plannerStep "q" [taskA])[k]? = some (.dispatch t) → 2 < k) ∧
      (plannerStep "q" [taskA]).drop 3 = [taskA].map PlannerAction.dispatch) :=
  ⟨by decide, init_before_dispatch "q" [taskA] (by decide)⟩

/-- C5: compilation of a global-mode task always succeeds and never emits a
date or version predicate, even when target_date and target_version are
non-null on the task. -/
theorem global_no_date_version (task : RetrievalTask)
    (hm : task.mode = "global") :
    ∃ fs, compileFilters task = .ok fs ∧
      ∀ f ∈ fs, f.key ≠ "start_date" ∧ f.key ≠ "end_date" ∧ f.key ≠ "version" := by
  have hp : ¬ (task.mode = "precision" ∧ pyTruthy task.target_date) := by
    rintro ⟨h1, _⟩
    rw [hm] at h1
    exact absurd h1 (by decide)
  have hv : ¬ (task.mode = "precision" ∧ pyTruthy task.target_version) := by
    rintro ⟨h1, _⟩
    rw [hm] at h1
    exact absurd h1 (by decide)
  by_cases hpt : pyTruthy task.protocol_type
  · refine ⟨[MetadataFilter.mk "protocol_type"
        (.strVal (task.protocol_type.getD "")) .eq], ?_, ?_⟩
    · simp [compileFilters, hp, hv, hpt]
    · intro f hf
      simp at hf
      subst hf
      exact ⟨show ("protocol_type" : String) ≠ "start_date" by decide,
        show ("protocol_type" : String) ≠ "end_date" by decide,
        show ("protocol_type" : String) ≠ "version" by decide⟩
  · refine ⟨[], ?_, ?_⟩
    · simp [compileFilters, hp, hv, hpt]
    · intro f hf
      simp at hf

theorem global_no_date_version_witness :
    (taskGlobalEx.mode = "global" ∧ taskGlobalEx.target_date ≠ none ∧
      taskGlobalEx.target_version ≠ none) ∧
    ∃ fs, compileFilters taskGlobalEx = .ok fs ∧
      ∀ f ∈ fs, f.key ≠ "start_date" ∧ f.key ≠ "end_date" ∧ f.key ≠ "version" :=
  ⟨by decide, global_no_date_version taskGlobalEx rfl⟩

/-- C6: the precision task with version 4.3.1 and protocol type Test
Protocol and no date compiles to exactly the version and protocol_type
equality predicates with no date predicate; in general, every successful
compilation of a task with a present non-empty protocol_type contains the
protocol_type equality predicate. -/
theorem protocol_type_filter :
    compileFilters taskPrecisionEx =
      .ok [⟨"version", .strVal "4.3.1", .eq⟩,
        ⟨"protocol_type", .strVal "Test Protocol", .eq⟩] ∧
    ∀ task p fs, task.protocol_type = some p → p ≠ "" →
      compileFilters task = .ok fs →
      MetadataFilter.mk "protocol_type" (.strVal p) .eq ∈ fs := by
  constructor
  · rfl
  · intro task p fs hp hpne hok
    obtain ⟨dfs, hdec⟩ := compileFilters_ok_decomp task fs hok
    have htr2 : pyTruthy (some p) = true := (pyTruthy_some p).2 hpne
    subst hdec
    refine List.mem_append_right _ ?_
    simp [hp, htr2]

theorem protocol_type_filter_witness :
    (taskPrecisionEx.protocol_type = some "Test Protocol" ∧
      "Test Protocol" ≠ "" ∧
      compileFilters taskPrecisionEx =
        .ok [⟨"version", .strVal "4.3.1", .eq⟩,
          ⟨"protocol_type", .strVal "Test Protocol", .eq⟩]) ∧
    MetadataFilter.mk "protocol_type" (.strVal "Test Protocol") .eq ∈
      [MetadataFilter.mk "version" (.strVal "4.3.1") .eq,
        MetadataFilter.mk "protocol_type" (.strVal "Test Protocol") .eq] :=
  ⟨⟨rfl, by decide, by rfl⟩,
    protocol_type_filter.2 taskPrecisionEx "Test Protocol" _ rfl (by decide) (by rfl)⟩

/-- C4: precision-mode compilation with a target date whose hyphen-stripped
form is a non-empty digit string (as every ISO date is) emits exactly two
date predicates, start_date LTE D and end_date GTE D with D the stripped
digits read as a number, and no further date predicate. -/
theorem precision_date_filters (task : RetrievalTask) (d : String)
    (hm : task.mode = "precision") (hd : task.target_date = some d)
    (h1 : stripHyphens d ≠ []) (h2 : ∀ c ∈ stripHyphens d, c.isDigit) :
    ∃ rest, compileFilters task =
        .ok (MetadataFilter.mk "start_date"
            (.intVal (Int.ofNat (digitVal (stripHyphens d)))) .lte ::
          MetadataFilter.mk "end_date"
            (.intVal (Int.ofNat (digitVal (stripHyphens d)))) .gte :: rest) ∧
      ∀ f ∈ rest, f.key ≠ "start_date" ∧ f.key ≠ "end_date" := by
  have hne : d ≠ "" := by
    intro e
    subst e
    exact h1 rfl
  have htr : pyTruthy task.target_date = true := by
    rw [hd]
    exact (pyTruthy_some d).2 hne
  have htr2 : pyTruthy (some d) = true := (pyTruthy_some d).2 hne
  have hpi := pyInt_of_digits (stripHyphens d) h1 h2
  refine ⟨(if task.mode = "precision" ∧ pyTruthy task.target_version then
      [MetadataFilter.mk "version" (.strVal (task.target_version.getD "")) .eq]
    else []) ++
    (if pyTruthy task.protocol_type then
      [MetadataFilter.mk "protocol_type"
        (.strVal (task.protocol_type.getD "")) .eq]
    else []), ?_, ?_⟩
  · simp [compileFilters, hm, hd, htr2, hpi]
  · intro f hf
    rcases List.mem_append.1 hf with hf | hf
    · split at hf
      · simp at hf
        subst hf
        exact ⟨show ("version" : String) ≠ "start_date" by decide,
          show ("version" : String) ≠ "end_date" by decide⟩
      · simp at hf
    · split at hf
      · simp at hf
        subst hf
        exact ⟨show ("protocol_type" : String) ≠ "start_date" by decide,
          show ("protocol_type" : String) ≠ "end_date" by decide⟩
      · simp at hf

theorem precision_date_filters_witness :
    (taskDateEx.mode = "precision" ∧ taskDateEx.target_date = some "2023-06-15" ∧
      stripHyphens "2023-06-15" ≠ [] ∧
      (∀ c ∈ stripHyphens "2023-06-15", c.isDigit) ∧
      Int.ofNat (digitVal (stripHyphens "2023-06-15")) = 20230615) ∧
    ∃ rest, compileFilters taskDateEx =
        .ok (MetadataFilter.mk "start_date" (.intVal 20230615) .lte ::
          MetadataFilter.mk "end_date" (.intVal 20230615) .gte :: rest) ∧
      ∀ f ∈ rest, f.key ≠ "start_date" ∧ f.key ≠ "end_date" :=
  ⟨⟨rfl, rfl, by decide, by decide, by rfl⟩,
    precision_date_filters taskDateEx "2023-06-15" rfl rfl (by decide) (by decide)⟩

theorem aggRunAux_no_fire (total : Nat) :
    ∀ (arrivals stored : List RetrievalResultEvent)
      (emitted : List (List RetrievalResultEvent)),
      stored.length + arrivals.length < total →
      aggRunAux total stored emitted arrivals = (stored ++ arrivals, emitted) := by
  intro arrivals
  induction arrivals with
  | nil =>
    intro stored emitted _
    simp [aggRunAux]
  | cons ev rest ih =>
    intro stored emitted h
    have hlt : ¬ total ≤ stored.length + 1 := by
      simp only [List.length_cons] at h
      omega
    rw [show aggRunAux total stored emitted (ev :: rest) =
        aggRunAux total (stored ++ [ev]) emitted rest from by
      simp [aggRunAux, aggStep, hlt]]
    rw [ih (stored ++ [ev]) emitted (by
      simp only [List.length_append, List.length_cons, List.length_nil]
      simp only [List.length_cons] at h
      omega)]
    simp

theorem aggRunAux_fire_last (total : Nat) :
    ∀ (arrivals stored : List RetrievalResultEvent)
      (emitted : List (List RetrievalResultEvent)),
      stored.length < total →
      stored.length + arrivals.length = total →
      aggRunAux total stored emitted arrivals =
        (stored ++ arrivals, emitted ++ [stored ++ arrivals]) := by
  intro arrivals
  induction arrivals with
  | nil =>
    intro stored emitted h1 h2
    exfalso
    simp at h2
    omega
  | cons ev rest ih =>
    intro stored emitted h1 h2
    by_cases hfin : rest = []
    · subst hfin
      have hge : total ≤ stored.length + 1 := by
        simp only [List.length_cons, List.length_nil] at h2
        omega
      simp [aggRunAux, aggStep, hge]
    · have hpos : 0 < rest.length := List.length_pos.2 hfin
      have hlt : ¬ total ≤ stored.length + 1 := by
        simp only [List.length_cons] at h2
        omega
      rw [show aggRunAux total stored emitted (ev :: rest) =
          aggRunAux total (stored ++ [ev]) emitted rest from by
        simp [aggRunAux, aggStep, hlt]]
      rw [ih (stored ++ [ev]) emitted
        (by
          simp only [List.length_append, List.length_cons, List.length_nil]
          simp only [List.length_cons] at h2
          omega)
        (by
          simp only [List.length_append, List.length_cons, List.length_nil]
          simp only [List.length_cons] at h2
          omega)]
      simp

/-- C1: for any plan size N at least 1 and any arrival order of the N
results, the aggregator emits nothing on every arrival before the N-th and
emits the aggregated results exactly once, at the N-th arrival, containing
all N results. -/
theorem barrier_fires_once (arrivals : List RetrievalResultEvent) (N : Nat)
    (hlen : arrivals.length = N) (hN : 1 ≤ N) :
    (aggRun N arrivals).2 = [arrivals] ∧
    ∀ k, k < N → (aggRun N (arrivals.take k)).2 = [] := by
  constructor
  · have h := aggRunAux_fire_last N arrivals [] []
      (by simpa using hN) (by simpa using hlen)
    simp [aggRun, h]
  · intro k hk
    have h := aggRunAux_no_fire N (arrivals.take k) [] []
      (by
        simp only [List.length_nil, List.length_take, hlen]
        omega)
    simp [aggRun, h]

theorem barrier_fires_once_witness :
    ([resA, resB].length = 2 ∧ 1 ≤ 2) ∧
    ((aggRun 2 [resA, resB]).2 = [[resA, resB]] ∧
      ∀ k, k < 2 → (aggRun 2 ([resA, resB].take k)).2 = []) :=
  ⟨⟨rfl, by decide⟩, barrier_fires_once [resA, resB] 2 rfl (by decide)⟩

/-- C2: when each arrival's read, append-and-store and compare blocks run to
completion before the other arrival's blocks start (the serialized schedules,
which are the ones the engine produces for the aggregator step), two
arrivals that together bring the count to the expected total can neither
both decide to emit nor both decide not to emit: exactly one of them fires. -/
theorem race_serialized_single_fire (total : Nat) (evA evB : Nat)
    (init : List Nat) (sched : List Bool)
    (htot : init.length + 2 = total) (hs : serializedSched sched) :
    ((raceRun total evA evB init sched).firedA = false ∧
      (raceRun total evA evB init sched).firedB = true) ∨
    ((raceRun total evA evB init sched).firedA = true ∧
      (raceRun total evA evB init sched).firedB = false) := by
  rcases hs with h | h <;> subst h
  · left
    constructor <;>
      simp [raceRun, raceStepA, raceStepB, decide_eq_true_eq,
        decide_eq_false_iff_not] <;>
      omega
  · right
    constructor <;>
      simp [raceRun, raceStepA, raceStepB, decide_eq_true_eq,
        decide_eq_false_iff_not] <;>
      omega

theorem race_serialized_single_fire_witness :
    (([] : List Nat).length + 2 = 2 ∧
      serializedSched [true, true, true, false, false, false]) ∧
    (((raceRun 2 0 1 [] [true, true, true, false, false, false]).firedA = false ∧
        (raceRun 2 0 1 [] [true, true, true, false, false, false]).firedB = true) ∨
      ((raceRun 2 0 1 [] [true, true, true, false, false, false]).firedA = true ∧
        (raceRun 2 0 1 [] [true, true, true, false, false, false]).firedB = false)) :=
  ⟨⟨rfl, Or.inl rfl⟩,
    race_serialized_single_fire 2 0 1 [] _ rfl (Or.inl rfl)⟩

theorem hasContent_false_iff (rs : List RetrievalResultEvent) :
    hasContent rs = false ↔ ∀ r ∈ rs, r.nodes = [] := by
  simp [hasContent, List.any_eq_false, List.isEmpty_iff]

theorem contextPartsAux_eq (rs : List RetrievalResultEvent) :
    ∀ i, contextPartsAux i rs =
      ((rs.enumFrom i).filter (fun p => !p.2.nodes.isEmpty)).map
        (fun p => contextBlock p.1 p.2) := by
  induction rs with
  | nil => intro i; rfl
  | cons r rs ih =>
    intro i
    by_cases h : r.nodes.isEmpty
    · simp [contextPartsAux, h, List.enumFrom, ih]
    · simp [contextPartsAux, h, List.enumFrom, ih]

/-- C7: when every aggregated result has no nodes, the synthesizer step
returns the fixed no-information message without calling the synthesizer
capability; when some result has nodes, the context of the single
synthesizer call is built from exactly the non-empty results, each labelled
with its position. -/
theorem synthesizer_short_circuit (synth : String → String → String)
    (results : List RetrievalResultEvent) (query : String) :
    ((∀ r ∈ results, r.nodes = []) →
      synthesizerStep synth results query = (noInfoMsg, [])) ∧
    ((∃ r ∈ results, r.nodes ≠ []) →
      synthesizerStep synth results query =
        (synth (String.intercalate "\n" (contextParts results)) query,
          [.synthesizeCall (String.intercalate "\n" (contextParts results)) query]) ∧
      contextParts results =
        (results.enum.filter (fun p => !p.2.nodes.isEmpty)).map
          (fun p => contextBlock p.1 p.2)) := by
  constructor
  · intro h
    have hc : hasContent results = false := (hasContent_false_iff results).2 h
    simp [synthesizerStep, hc]
  · intro h
    have hc : hasContent results = true := by
      rcases h with ⟨r, hr, hne⟩
      simp [hasContent, List.any_eq_true]
      exact ⟨r, hr, by simpa [List.isEmpty_iff] using hne⟩
    refine ⟨by simp [synthesizerStep, hc], ?_⟩
    simpa [List.enum] using contextPartsAux_eq results 0

theorem synthesizer_short_circuit_witness :
    (∀ r ∈ [resEmptyA, resEmptyB], r.nodes = []) ∧
    synthesizerStep exSynth [resEmptyA, resEmptyB] "q" = (noInfoMsg, []) :=
  ⟨by decide,
    (synthesizer_short_circuit exSynth [resEmptyA, resEmptyB] "q").1 (by decide)⟩

/-- C8 amended: when some aggregated result is non-empty, the synthesizer
step calls the synthesizer capability exactly once, passing the original
query and the concatenation of one labelled block per non-empty result in
accumulation (arrival) order, and returns the capability's answer verbatim. -/
theorem synth_called_once_arrival_order (synth : String → String → String)
    (results : List RetrievalResultEvent) (query : String)
    (h : hasContent results = true) :
    synthesizerStep synth results query =
      (synth (String.intercalate "\n" (contextParts results)) query,
        [.synthesizeCall (String.intercalate "\n" (contextParts results)) query]) ∧
    contextParts results =
      (results.enum.filter (fun p => !p.2.nodes.isEmpty)).map
        (fun p => contextBlock p.1 p.2) := by
  refine ⟨by simp [synthesizerStep, h], ?_⟩
  simpa [List.enum] using contextPartsAux_eq results 0

theorem synth_called_once_arrival_order_witness :
    hasContent [resB, resA] = true ∧
    (synthesizerStep exSynth [resB, resA] "q" =
      (exSynth (String.intercalate "\n" (contextParts [resB, resA])) "q",
        [.synthesizeCall (String.intercalate "\n" (contextParts [resB, resA])) "q"]) ∧
      contextParts [resB, resA] =
        ([resB, resA].enum.filter (fun p => !p.2.nodes.isEmpty)).map
          (fun p => contextBlock p.1 p.2)) :=
  ⟨rfl, synth_called_once_arrival_order exSynth [resB, resA] "q" rfl⟩

/-- C8 counterexample: with plan order task A then task B but completion
order B then A, the run passes the synthesizer a context whose labelled
blocks are in arrival order, and that context differs from the
dispatch-order concatenation the claim asserts. -/
theorem synth_dispatch_order_counterexample :
    runWorkflow exSearch exRerank exSynth [taskA, taskB] "query" [1, 0] =
      .ok (String.intercalate "\n" (contextParts [resB, resA]),
        [.retrieveCall "qa" none, .rerankCall "qa", .retrieveCall "qb" none,
          .rerankCall "qb",
          .synthesizeCall (String.intercalate "\n" (contextParts [resB, resA]))
            "query"]) ∧
    String.intercalate "\n" (contextParts [resB, resA]) ≠
      String.intercalate "\n" (contextParts [resA, resB]) :=
  ⟨by rfl, by decide⟩

theorem glueGroups_prepend (c : Char) (g : List Char) (gs : List (List Char)) :
    glueGroups ((c :: g) :: gs) = c :: glueGroups (g :: gs) := by
  cases gs <;> simp [glueGroups]

theorem glueGroups_head_digit :
    ∀ gs : List (List Char), gs ≠ [] →
      (∀ g ∈ gs, g ≠ [] ∧ ∀ c ∈ g, c.isDigit) →
      ∃ c rest, glueGroups gs = c :: rest ∧ c.isDigit = true := by
  intro gs hne hval
  match gs with
  | [] => exact absurd rfl hne
  | g :: gs' =>
    obtain ⟨hg, hd⟩ := hval g (by simp)
    match g with
    | [] => exact absurd rfl hg
    | c :: g' =>
      exact ⟨c, glueGroups (g' :: gs'), glueGroups_prepend c g' gs', hd c (by simp)⟩

theorem pyDigitTail_glue_append :
    ∀ g rest : List Char, (∀ c ∈ g, c.isDigit) → pyDigitPart rest = true →
      pyDigitTail (g ++ '_' :: rest) = true := by
  intro g
  induction g with
  | nil =>
    intro rest _ hrest
    match rest with
    | [] => exact absurd hrest (by decide)
    | c2 :: cs2 =>
      simp [pyDigitPart] at hrest
      rw [pyDigitTail.eq_def]
      simp [hrest.1, hrest.2]
  | cons c g' ih =>
    intro rest hdig hrest
    have hc : c.isDigit = true := hdig c (by simp)
    have hu : ¬ c = '_' := ne_underscore_of_isDigit c hc
    have ht := ih rest (fun x hx => hdig x (by simp [hx])) hrest
    rw [List.cons_append, pyDigitTail.eq_def]
    simp [hu, hc, ht]

theorem pyDigitPart_glue :
    ∀ gs : List (List Char), gs ≠ [] →
      (∀ g ∈ gs, g ≠ [] ∧ ∀ c ∈ g, c.isDigit) →
      pyDigitPart (glueGroups gs) = true := by
  intro gs
  induction gs with
  | nil => intro hne _; exact absurd rfl hne
  | cons g gs' ih =>
    intro _ hval
    obtain ⟨hg, hd⟩ := hval g (by simp)
    match gs' with
    | [] =>
      simpa [glueGroups] using pyDigitPart_of_digits g hg hd
    | g2 :: gs2 =>
      have hrest : pyDigitPart (glueGroups (g2 :: gs2)) = true :=
        ih (by simp) (fun x hx => hval x (by simp [hx]))
      match g with
      | [] => exact absurd rfl hg
      | c :: g' =>
        have hc : c.isDigit = true := hd c (by simp)
        have ht := pyDigitTail_glue_append g' (glueGroups (g2 :: gs2))
          (fun x hx => hd x (by simp [hx])) hrest
        simp [glueGroups, pyDigitPart, hc]
        simpa using ht

theorem digit_shape_of_tail :
    ∀ cs : List Char, pyDigitTail cs = true →
      ∀ c, c.isDigit = true →
        ∃ gs, gs ≠ [] ∧ (∀ g ∈ gs, g ≠ [] ∧ ∀ x ∈ g, x.isDigit) ∧
          c :: cs = glueGroups gs := by
  intro cs
  induction cs using pyDigitTail.induct with
  | case1 =>
    intro _ c hc
    exact ⟨[[c]], by simp, by simp [hc], rfl⟩
  | case2 =>
    intro h
    exact absurd h (by decide)
  | case3 c2 cs2 ih =>
    intro h c hc
    rw [pyDigitTail.eq_def] at h
    simp at h
    obtain ⟨gs, hne, hval, hglue⟩ := ih h.2 c2 h.1
    match gs with
    | [] => exact absurd rfl hne
    | g0 :: gs0 =>
      refine ⟨[c] :: g0 :: gs0, by simp, ?_, ?_⟩
      · intro g hg
        rcases List.mem_cons.1 hg with hg | hg
        · subst hg
          exact ⟨by simp, by simp [hc]⟩
        · exact hval g hg
      · simp [glueGroups]
        rw [← hglue]
  | case4 c cs h ih =>
    intro hp c0 hc0
    rw [pyDigitTail.eq_def] at hp
    simp [h] at hp
    obtain ⟨gs, hne, hval, hglue⟩ := ih hp.2 c hp.1
    match gs with
    | [] => exact absurd rfl hne
    | g0 :: gs0 =>
      refine ⟨(c0 :: g0) :: gs0, by simp, ?_, ?_⟩
      · intro g hg
        rcases List.mem_cons.1 hg with hg | hg
        · subst hg
          have := hval g0 (by simp)
          exact ⟨by simp, by
            intro x hx
            rcases List.mem_cons.1 hx with hx | hx
            · subst hx; exact hc0
            · exact this.2 x hx⟩
        · exact hval g (by simp [hg])
      · rw [glueGroups_prepend, ← hglue]

theorem digit_shape_of_part (cs : List Char) (h : pyDigitPart cs = true) :
    ∃ gs, gs ≠ [] ∧ (∀ g ∈ gs, g ≠ [] ∧ ∀ x ∈ g, x.isDigit) ∧
      cs = glueGroups gs := by
  match cs with
  | [] => exact absurd h (by decide)
  | c :: cs' =>
    simp [pyDigitPart] at h
    exact digit_shape_of_tail cs' h.2 c h.1

theorem dropWhile_append_of_all {p : Char → Bool} :
    ∀ w rest : List Char, (∀ c ∈ w, p c = true) →
      (w ++ rest).dropWhile p = rest.dropWhile p := by
  intro w
  induction w with
  | nil => intro rest _; rfl
  | cons c w ih =>
    intro rest h
    have hc : p c = true := h c (by simp)
    rw [List.cons_append, List.dropWhile_cons, if_pos hc]
    exact ih rest (fun x hx => h x (by simp [hx]))

theorem dropWhile_cons_of_neg {p : Char → Bool} (c : Char) (l : List Char)
    (h : p c = false) : (c :: l).dropWhile p = c :: l := by
  simp [List.dropWhile_cons, h]

theorem glueGroups_last_digit :
    ∀ gs : List (List Char), gs ≠ [] →
      (∀ g ∈ gs, g ≠ [] ∧ ∀ c ∈ g, c.isDigit) →
      ∃ c rest, (glueGroups gs).reverse = c :: rest ∧ c.isDigit = true := by
  intro gs
  induction gs with
  | nil => intro hne _; exact absurd rfl hne
  | cons g gs' ih =>
    intro _ hval
    match gs' with
    | [] =>
      obtain ⟨hg, hd⟩ := hval g (by simp)
      match hgr : g.reverse with
      | [] => exact absurd (by simpa using hgr) hg
      | c :: rest =>
        refine ⟨c, rest, by simpa [glueGroups] using hgr, ?_⟩
        have hc : c ∈ g := by
          rw [← List.mem_reverse, hgr]
          simp
        exact hd c hc
    | g2 :: gs2 =>
      obtain ⟨c, rest, hcr, hcd⟩ :=
        ih (by simp) (fun x hx => hval x (by simp [hx]))
      refine ⟨c, rest ++ '_' :: g.reverse, ?_, hcd⟩
      rw [show glueGroups (g :: g2 :: gs2) = g ++ '_' :: glueGroups (g2 :: gs2)
        from by simp [glueGroups]]
      rw [List.reverse_append]
      simp [hcr]

theorem pyInt_isSome_of_shape (cs : List Char) (h : PyIntShape cs) :
    (pyInt cs).isSome = true := by
  obtain ⟨w1, sg, core, w2, hcs, hw1, hw2, hsg, gs, hne, hval, hglue⟩ := h
  have hpart : pyDigitPart core = true := by
    rw [hglue]
    exact pyDigitPart_glue gs hne hval
  obtain ⟨ch, chrest, hch, hchd⟩ :
      ∃ c rest, core = c :: rest ∧ c.isDigit = true := by
    obtain ⟨c, rest, hcr, hcd⟩ := glueGroups_head_digit gs hne hval
    exact ⟨c, rest, by rw [hglue, hcr], hcd⟩
  obtain ⟨cl, clrest, hcl, hcld⟩ :
      ∃ c rest, core.reverse = c :: rest ∧ c.isDigit = true := by
    obtain ⟨c, rest, hcr, hcd⟩ := glueGroups_last_digit gs hne hval
    exact ⟨c, rest, by rw [hglue]; exact hcr, hcd⟩
  have hcs2 : cs = w1 ++ (sg ++ (core ++ w2)) := by
    rw [hcs]
    simp [List.append_assoc]
  have hfront : cs.dropWhile isPySpace = sg ++ (core ++ w2) := by
    rw [hcs2, dropWhile_append_of_all w1 _ hw1]
    rcases hsg with h0 | h0 | h0 <;> subst h0
    · rw [List.nil_append, hch, List.cons_append,
        dropWhile_cons_of_neg _ _ (isPySpace_eq_false_of_isDigit ch hchd)]
    · rw [List.singleton_append, dropWhile_cons_of_neg _ _ (by decide)]
    · rw [List.singleton_append, dropWhile_cons_of_neg _ _ (by decide)]
  have hw2r : ∀ c ∈ w2.reverse, isPySpace c = true := by
    intro c hc
    exact hw2 c (List.mem_reverse.1 hc)
  have hback :
      ((sg ++ (core ++ w2)).reverse.dropWhile isPySpace).reverse = sg ++ core := by
    rw [List.reverse_append, List.reverse_append, List.append_assoc,
      dropWhile_append_of_all _ _ hw2r, hcl, List.cons_append,
      dropWhile_cons_of_neg _ _ (isPySpace_eq_false_of_isDigit cl hcld),
      ← List.cons_append, ← hcl, List.reverse_append, List.reverse_reverse,
      List.reverse_reverse]
  unfold pyInt
  rw [hfront, hback]
  rcases hsg with h0 | h0 | h0 <;> subst h0
  · have hplus : ¬ ch = '+' := by
      intro e
      subst e
      exact absurd hchd (by decide)
    have hminus : ¬ ch = '-' := by
      intro e
      subst e
      exact absurd hchd (by decide)
    have hpart2 : pyDigitPart (ch :: chrest) = true := hch ▸ hpart
    rw [List.nil_append, hch]
    simp [pyIntCore, hplus, hminus, hpart2]
  · rw [List.singleton_append]
    simp [pyIntCore, hpart]
  · rw [List.singleton_append]
    simp [pyIntCore, hpart]

theorem shape_of_pyInt_isSome (cs : List Char) (h : (pyInt cs).isSome = true) :
    PyIntShape cs := by
  have hw1 : ∀ c ∈ cs.takeWhile isPySpace, isPySpace c = true :=
    fun c hc => List.mem_takeWhile_imp hc
  have hw2 : ∀ c ∈ ((cs.dropWhile isPySpace).reverse.takeWhile isPySpace).reverse,
      isPySpace c = true := by
    intro c hc
    exact List.mem_takeWhile_imp (List.mem_reverse.1 hc)
  have hmdec : cs.dropWhile isPySpace =
      ((cs.dropWhile isPySpace).reverse.dropWhile isPySpace).reverse ++
        ((cs.dropWhile isPySpace).reverse.takeWhile isPySpace).reverse := by
    have h0 := congrArg List.reverse
      (List.takeWhile_append_dropWhile isPySpace (cs.dropWhile isPySpace).reverse)
    rw [List.reverse_append, List.reverse_reverse] at h0
    exact h0.symm
  have hcs2 : cs = cs.takeWhile isPySpace ++
      (((cs.dropWhile isPySpace).reverse.dropWhile isPySpace).reverse ++
        ((cs.dropWhile isPySpace).reverse.takeWhile isPySpace).reverse) := by
    rw [← hmdec]
    exact (List.takeWhile_append_dropWhile isPySpace cs).symm
  unfold pyInt at h
  rcases htx : ((cs.dropWhile isPySpace).reverse.dropWhile isPySpace).reverse
    with _ | ⟨c, rest⟩
  · rw [htx] at h
    exact absurd h (by decide)
  · rw [htx] at h hcs2
    by_cases hcp : c = '+'
    · subst hcp
      have hdp : pyDigitPart rest = true := by
        by_contra hnd
        simp [pyIntCore, hnd] at h
      obtain ⟨gs, hne, hval, hglue⟩ := digit_shape_of_part rest hdp
      refine ⟨cs.takeWhile isPySpace, ['+'], rest,
        ((cs.dropWhile isPySpace).reverse.takeWhile isPySpace).reverse,
        ?_, hw1, hw2, Or.inr (Or.inl rfl), gs, hne, hval, hglue⟩
      exact hcs2.trans (by simp [List.append_assoc])
    · by_cases hcm : c = '-'
      · subst hcm
        have hdp : pyDigitPart rest = true := by
          by_contra hnd
          simp [pyIntCore, hnd] at h
        obtain ⟨gs, hne, hval, hglue⟩ := digit_shape_of_part rest hdp
        refine ⟨cs.takeWhile isPySpace, ['-'], rest,
          ((cs.dropWhile isPySpace).reverse.takeWhile isPySpace).reverse,
          ?_, hw1, hw2, Or.inr (Or.inr rfl), gs, hne, hval, hglue⟩
        exact hcs2.trans (by simp [List.append_assoc])
      · have hdp : pyDigitPart (c :: rest) = true := by
          by_contra hnd
          simp [pyIntCore, hcp, hcm, hnd] at h
        obtain ⟨gs, hne, hval, hglue⟩ := digit_shape_of_part (c :: rest) hdp
        refine ⟨cs.takeWhile isPySpace, [], c :: rest,
          ((cs.dropWhile isPySpace).reverse.takeWhile isPySpace).reverse,
          ?_, hw1, hw2, Or.inl rfl, gs, hne, hval, hglue⟩
        exact hcs2.trans (by simp [List.append_assoc])

/-- C10 amended: for a precision task whose present target date consists of
ASCII characters (the data model's ISO date form is ASCII), filter
compilation succeeds exactly when the date is the empty string (truthiness
treats it as absent, emitting no date predicates) or its hyphen-stripped
form is a Python integer literal: optional surrounding whitespace, an
optional sign, then decimal digits with optional single underscores between
them. In particular every non-empty digit string succeeds, and a month name
or other malformed date makes the conversion raise and fail the dispatch.
Non-ASCII dates, for which the builtin also accepts Unicode decimal digits
and Unicode whitespace, are outside this claim's scope. -/
theorem int_conversion_amended (task : RetrievalTask) (d : String)
    (hm : task.mode = "precision") (hd : task.target_date = some d)
    (hascii : ∀ c ∈ d.toList, c.toNat < 128) :
    exceptOk (compileFilters task) = true ↔
      (d = "" ∨ PyIntShape (stripHyphens d)) := by
  by_cases hde : d = ""
  · subst hde
    have hft : pyTruthy (some "") = false := by decide
    constructor
    · intro _
      exact Or.inl rfl
    · intro _
      simp [compileFilters, hd, hft, exceptOk]
  · have htr : pyTruthy (some d) = true := (pyTruthy_some d).2 hde
    rcases hpi : pyInt (stripHyphens d) with _ | n
    · have lhs : exceptOk (compileFilters task) = false := by
        simp [compileFilters, hm, hd, htr, hpi, exceptOk]
      constructor
      · intro hok
        rw [lhs] at hok
        exact absurd hok (by decide)
      · rintro (he | hs)
        · exact absurd he hde
        · exfalso
          have hsome := pyInt_isSome_of_shape _ hs
          rw [hpi] at hsome
          exact absurd hsome (by decide)
    · have lhs : exceptOk (compileFilters task) = true := by
        simp [compileFilters, hm, hd, htr, hpi, exceptOk]
      constructor
      · intro _
        refine Or.inr (shape_of_pyInt_isSome _ ?_)
        rw [hpi]
        rfl
      · intro _
        exact lhs

theorem int_conversion_amended_witness :
    (taskJuneEx.mode = "precision" ∧ taskJuneEx.target_date = some "June 2023" ∧
      (∀ c ∈ "June 2023".toList, c.toNat < 128)) ∧
    (exceptOk (compileFilters taskJuneEx) = true ↔
      ("June 2023" = "" ∨ PyIntShape (stripHyphens "June 2023"))) :=
  ⟨⟨rfl, rfl, by decide⟩,
    int_conversion_amended taskJuneEx "June 2023" rfl rfl (by decide)⟩

/-- C10 counterexample: the precision task with target date +2023-06-15
compiles successfully, although its hyphen-stripped form is neither empty
nor a non-empty string of decimal digits, so the claimed equivalence fails
on this input. -/
theorem int_conversion_counterexample :
    taskPlusDateEx.mode = "precision" ∧
    taskPlusDateEx.target_date = some "+2023-06-15" ∧
    exceptOk (compileFilters taskPlusDateEx) = true ∧
    "+2023-06-15" ≠ "" ∧
    stripHyphens "+2023-06-15" ≠ [] ∧
    ¬ (∀ c ∈ stripHyphens "+2023-06-15", c.isDigit) :=
  ⟨rfl, rfl, by rfl, by decide, by decide, by decide⟩

end EuroNCAP
